import Mathlib

/-!
Verification of the audiowise pipeline (src/main.py) against its
natural-language specification.

The embedding below translates the Python source into Lean:
filesystem state is an association list from paths to contents, external
collaborators (HTTP, ffmpeg, whisper, language_tool) are modelled by
environments that fix the outcome of each call, and the single-item and
folder drivers are translated control-flow-faithfully, including which
paths are registered in the `temp_files` lists and in which order stages
run, write, and remove files.
-/

set_option linter.unusedVariables false

namespace Audiowise

/-- Filesystem model: an association list mapping a path to the file's
content.  A path is present iff some entry carries it. -/
abbrev FS := List (String × String)

/-- Content stored at a path, if any (first matching entry). -/
def FS.read : FS → String → Option String
  | [], _ => none
  | e :: es, p => if e.1 = p then some e.2 else FS.read es p

/-- Remove every entry for a path: the model of a successful `os.remove`
(and the base case of overwriting). -/
def FS.remove : FS → String → FS
  | [], _ => []
  | e :: es, p => if e.1 = p then FS.remove es p else e :: FS.remove es p

/-- Create or overwrite the file at a path: the model of
`open(path, "w")` followed by a complete write. -/
def FS.write (fs : FS) (p c : String) : FS := (p, c) :: FS.remove fs p

/-- Model of `os.path.exists` for files tracked by the model. -/
def FS.existsp (fs : FS) (p : String) : Bool := (FS.read fs p).isSome

/-- Model of `cleanup_temp_files` (src/main.py lines 24-29): iterate over
the given list, and for each path that exists call `os.remove`.  The
`failing` parameter is the environment's fault model: removing a path in
`failing` raises an `OSError`.  The Python body has no try/except, so a
raise aborts the loop; the returned flag records whether an exception
propagated out of the function, paired with the filesystem state at that
moment. -/
def cleanup_temp_files (failing : List String) : FS → List String → Bool × FS
  | fs, [] => (false, fs)
  | fs, p :: ps =>
    if FS.existsp fs p = true then
      if p ∈ failing then (true, fs)
      else cleanup_temp_files failing (FS.remove fs p) ps
    else cleanup_temp_files failing fs ps

/-- Split a character list into chunks of size `n + 1` (the successor
argument makes the recursion well-founded). -/
def chunksOf (n : Nat) : List Char → List (List Char)
  | [] => []
  | c :: cs => (c :: cs.take n) :: chunksOf n (cs.drop n)
termination_by l => l.length
decreasing_by simp [List.length_drop]; omega

/-- One HTTP exchange: the status code and the response body. -/
structure HTTPResponse where
  status : Nat
  body : List Char
deriving DecidableEq

/-- Model of `download_video` (src/main.py lines 46-56).  `requests.get`
consumes the first pending response of the environment; the body checks
`status_code == 200`, and on success streams the body to `download_path`
in chunks of 1024 bytes (`chunksOf 1023` builds chunks of size 1024);
otherwise it raises without touching the filesystem.  The returned flag
is true on success, false when the call raised. -/
def download_video (responses : List HTTPResponse) (url download_path : String)
    (fs : FS) : Bool × FS :=
  match responses with
  | [] => (false, fs)
  | r :: _ =>
    if r.status = 200 then
      (true, FS.write fs download_path (String.mk ((chunksOf 1023 r.body).flatten)))
    else (false, fs)

/-- Spec-side definition, used only to compare the code against the
specification's words: an HTTP status is a success status when it lies in
the 2xx range. -/
def isHttpSuccess (n : Nat) : Prop := 200 ≤ n ∧ n < 300

/-- Outcomes of the external collaborators (ffmpeg, whisper,
language_tool) for one item: whether each call succeeds and what content
it produces.  `correctedText` is the result of `tool.correct` applied to
the raw transcript. -/
structure StageEnv where
  extractOk : Bool
  convertOk : Bool
  transcribeOk : Bool
  correctOk : Bool
  audioContent : String
  monoContent : String
  correctedText : String
deriving DecidableEq

/-- Model of `extract_audio` (src/main.py lines 58-72): on ffmpeg success
the audio file appears at `output_audio_path`; a non-zero exit raises
(flag false) and leaves the filesystem as it was. -/
def extract_audio (env : StageEnv) (video_path output_audio_path : String)
    (fs : FS) : Bool × FS :=
  if env.extractOk then (true, FS.write fs output_audio_path env.audioContent)
  else (false, fs)

/-- Model of `convert_to_mono` (src/main.py lines 86-93). -/
def convert_to_mono (env : StageEnv) (input_audio output_audio : String)
    (fs : FS) : Bool × FS :=
  if env.convertOk then (true, FS.write fs output_audio env.monoContent)
  else (false, fs)

/-- Model of `transcribe_audio` (src/main.py lines 74-84): call
`model.transcribe`, then `tool.correct`, and only after both return open
`output_txt_path` and write the corrected text.  If either call raises the
file is never opened. -/
def transcribe_audio (env : StageEnv) (audio_path output_txt_path : String)
    (fs : FS) : Bool × FS :=
  if env.transcribeOk = false then (false, fs)
  else if env.correctOk = false then (false, fs)
  else (true, FS.write fs output_txt_path env.correctedText)

/-- All four external calls of one item succeed. -/
def stageAllOk (e : StageEnv) : Prop :=
  e.extractOk = true ∧ e.convertOk = true ∧ e.transcribeOk = true ∧
    e.correctOk = true

/-- Some stage call of one item raises. -/
def stageFails (e : StageEnv) : Prop :=
  e.extractOk = false ∨ e.convertOk = false ∨ e.transcribeOk = false ∨
    e.correctOk = false

/-- Model of Python's `str.startswith`. -/
def pyStartsWith (s pre : String) : Bool := pre.data.isPrefixOf s.data

instance (e : StageEnv) : Decidable (stageAllOk e) := by
  unfold stageAllOk; infer_instance

instance (e : StageEnv) : Decidable (stageFails e) := by
  unfold stageFails; infer_instance

instance (n : Nat) : Decidable (isHttpSuccess n) := by
  unfold isHttpSuccess; infer_instance

/-- One single-item invocation of `main` (src/main.py lines 141-180):
the input and resolved output paths, the `uuid4` token of this run, and
the temp directory returned by `get_temp_dir`. -/
structure SingleJob where
  video_path : String
  output_path : String
  uid : String
  tempDir : String
deriving DecidableEq

/-- The scratch path a remote video is downloaded to (line 177). -/
def SingleJob.scratchVideo (j : SingleJob) : String :=
  j.tempDir ++ "/video_" ++ j.uid ++ ".mp4"

/-- Line 177: the scratch video path when the input starts with "http",
the source path itself otherwise. -/
def SingleJob.temp_video_path (j : SingleJob) : String :=
  if pyStartsWith j.video_path ("http") then j.scratchVideo else j.video_path

/-- Line 178: the extracted-audio scratch path. -/
def SingleJob.output_audio_path (j : SingleJob) : String :=
  j.tempDir ++ "/audio_" ++ j.uid ++ ".mp3"

/-- Line 179: the mono-audio scratch path. -/
def SingleJob.mono_audio_path (j : SingleJob) : String :=
  j.tempDir ++ "/mono_audio_" ++ j.uid ++ ".mp3"

/-- The ScratchSet of a single-item Job: the downloaded-video path when
the source is classified as remote, plus the audio and mono paths. -/
def SingleJob.scratchPaths (j : SingleJob) : List String :=
  (if pyStartsWith j.video_path ("http") then [j.scratchVideo] else []) ++
    [j.output_audio_path, j.mono_audio_path]

/-- The external world of one single-item run: the pending HTTP responses
and the stage outcomes. -/
structure RunEnv where
  responses : List HTTPResponse
  stage : StageEnv

/-- If the job is classified as remote, the first HTTP response has
status 200 (the fetch succeeds). -/
def fetchOk (j : SingleJob) (env : RunEnv) : Prop :=
  pyStartsWith j.video_path ("http") = true →
    ∃ r rs, env.responses = r :: rs ∧ r.status = 200

/-- A point in a run at which an OS signal may arrive: the filesystem
state together with the registry the installed `handle_exit` handler
would read (the `temp_files` list of `main`, lines 146-154). -/
structure Snap where
  fs : FS
  registry : List String
deriving DecidableEq

/-- The scratch paths of a Job that exist on disk in a given state. -/
def allocatedScratch (j : SingleJob) (fs : FS) : List String :=
  j.scratchPaths.filter (fun p => FS.existsp fs p)

/-- No scratch path of the Job exists in the given state. -/
def scratchFree (j : SingleJob) (fs : FS) : Prop :=
  ∀ p ∈ j.scratchPaths, FS.existsp fs p = false

instance (j : SingleJob) (fs : FS) : Decidable (scratchFree j fs) := by
  unfold scratchFree; infer_instance

/-- Filesystem states reached by the body of the single-item branch of
`main` after `temp_files` has been extended (line 180), in program order
(src/main.py lines 182-197): optional download, extract, downmix,
transcribe-and-write, then the three success-path removals.  A stage that
raises ends the list there: the `except` arm (lines 196-197) only prints,
so no further state change happens before `main` returns. -/
def mainSingleRunFS (j : SingleJob) (env : RunEnv) (fs0 : FS) : List FS :=
  let remote := pyStartsWith j.video_path ("http")
  let dl := if remote then
      download_video env.responses j.video_path j.temp_video_path fs0
    else (true, fs0)
  let pre := if remote then [fs0, dl.2] else [fs0]
  if dl.1 = false then pre
  else
    let ex := extract_audio env.stage j.temp_video_path j.output_audio_path dl.2
    if ex.1 = false then pre ++ [ex.2]
    else
      let cv := convert_to_mono env.stage j.output_audio_path j.mono_audio_path ex.2
      if cv.1 = false then pre ++ [ex.2, cv.2]
      else
        let tr := transcribe_audio env.stage j.mono_audio_path j.output_path cv.2
        if tr.1 = false then pre ++ [ex.2, cv.2, tr.2]
        else
          let fs5 := FS.remove tr.2 j.output_audio_path
          let fs6 := FS.remove fs5 j.mono_audio_path
          let fs7 := if remote then FS.remove fs6 j.temp_video_path else fs6
          pre ++ [ex.2, cv.2, tr.2, fs5, fs6, fs7]

/-- The single-item branch of `main` (src/main.py lines 163-197) as the
list of signal-visible snapshots, in program order.  The input-existence
check (line 164) and the skip-if-done check (lines 171-173) return before
anything is allocated, leaving only the initial snapshot with an empty
registry; otherwise `temp_files` is extended with the audio and mono
paths (line 180) before the pipeline body runs. -/
def mainSingleTrace (j : SingleJob) (env : RunEnv) (fs0 : FS) : List Snap :=
  if FS.existsp fs0 j.video_path = false then [⟨fs0, []⟩]
  else if FS.existsp fs0 j.output_path = true then [⟨fs0, []⟩]
  else
    ⟨fs0, []⟩ ::
      (mainSingleRunFS j env fs0).map
        (fun fs => ⟨fs, [j.output_audio_path, j.mono_audio_path]⟩)

/-- The state in which the single-item branch of `main` returns. -/
def mainSingleFinal (j : SingleJob) (env : RunEnv) (fs0 : FS) : Snap :=
  (mainSingleTrace j env fs0).getLastD ⟨fs0, []⟩

/-- Model of Python's `str.lower`. -/
def pyLower (s : String) : String := String.mk (s.data.map Char.toLower)

/-- Index of the last dot of a character list, if any. -/
def lastDotIdx (cs : List Char) : Option Nat :=
  ((List.range cs.length).filter (fun i => cs.getD i (' ') = '.')).getLast?

/-- Model of `os.path.splitext` on a bare filename (no directory
separators, as produced by `os.listdir`): the extension starts at the
last dot, except that a name whose characters before that dot are all
dots has no extension. -/
def splitext (name : String) : String × String :=
  let cs := name.data
  match lastDotIdx cs with
  | none => (name, "")
  | some i =>
    if (cs.take i).all (fun ch => ch = '.') then (name, "")
    else (String.mk (cs.take i), String.mk (cs.drop i))

/-- The whitelist of video extensions (src/main.py line 14). -/
def SUPPORTED_VIDEO_EXTENSIONS : List String :=
  [".mp4", ".mkv", ".avi", ".mov", ".flv", ".wmv", ".ts", ".webm", ".m4v"]

/-- One entry of `os.listdir(input_folder)`: its name and whether the
joined path is a regular file. -/
structure DirEntry where
  name : String
  isFile : Bool
deriving DecidableEq

/-- The filter of `process_folder` (src/main.py lines 101-104): regular
files whose lower-cased extension is in the whitelist. -/
def videoFiles (entries : List DirEntry) : List DirEntry :=
  entries.filter
    (fun e => e.isFile &&
      decide (pyLower (splitext e.name).2 ∈ SUPPORTED_VIDEO_EXTENSIONS))

/-- Configuration of one `process_folder` run: the folders, the temp
directory, the `uuid4` token drawn for each file, and the stage outcomes
of each file. -/
structure FolderCfg where
  input_folder : String
  output_folder : String
  tempDir : String
  uidOf : String → String
  envOf : String → StageEnv

/-- Line 109: the transcript path derived for a file. -/
def FolderCfg.outPath (c : FolderCfg) (f : String) : String :=
  c.output_folder ++ "/" ++ (splitext f).1 ++ ".txt"

/-- Line 117: the extracted-audio scratch path of a file. -/
def FolderCfg.audioPath (c : FolderCfg) (f : String) : String :=
  c.tempDir ++ "/audio_" ++ c.uidOf f ++ ".mp3"

/-- Line 118: the mono-audio scratch path of a file. -/
def FolderCfg.monoPath (c : FolderCfg) (f : String) : String :=
  c.tempDir ++ "/mono_audio_" ++ c.uidOf f ++ ".mp3"

/-- The error line printed by the `except` arm of `process_folder`
(line 130); the exception text is omitted from the model. -/
def errLine (f : String) : String := "Erro ao processar " ++ f

/-- State threaded through the loop of `process_folder`: the filesystem,
the function-local `temp_files` list (line 105), and the error lines
printed so far. -/
structure BState where
  fs : FS
  temp_files : List String
  log : List String
deriving DecidableEq

/-- One iteration of the loop of `process_folder` (src/main.py lines
107-131), paired with the signal-visible snapshots of that iteration.
The snapshots carry an empty registry: `handle_exit` closes over the
`temp_files` of `main` (line 146), which the folder branch never extends
(`process_folder` uses its own local list).  The iteration itself: skip
if the transcript exists, extend the local `temp_files`, then run the
stages; any stage exception is caught, the error line printed, and
`cleanup_temp_files` invoked over the whole accumulated local list. -/
def folderStepTrace (c : FolderCfg) (st : BState) (f : String) :
    BState × List Snap :=
  let out := c.outPath f
  if FS.existsp st.fs out = true then (st, [])
  else
    let a := c.audioPath f
    let m := c.monoPath f
    let reg := st.temp_files ++ [a, m]
    let env := c.envOf f
    let ex := extract_audio env (c.input_folder ++ "/" ++ f) a st.fs
    if ex.1 = false then
      let fs' := (cleanup_temp_files [] ex.2 reg).2
      (⟨fs', reg, st.log ++ [errLine f]⟩, [⟨ex.2, []⟩, ⟨fs', []⟩])
    else
      let cv := convert_to_mono env a m ex.2
      if cv.1 = false then
        let fs' := (cleanup_temp_files [] cv.2 reg).2
        (⟨fs', reg, st.log ++ [errLine f]⟩,
          [⟨ex.2, []⟩, ⟨cv.2, []⟩, ⟨fs', []⟩])
      else
        let tr := transcribe_audio env m out cv.2
        if tr.1 = false then
          let fs' := (cleanup_temp_files [] tr.2 reg).2
          (⟨fs', reg, st.log ++ [errLine f]⟩,
            [⟨ex.2, []⟩, ⟨cv.2, []⟩, ⟨tr.2, []⟩, ⟨fs', []⟩])
        else
          let fs4 := FS.remove tr.2 a
          let fs5 := FS.remove fs4 m
          (⟨fs5, reg, st.log⟩,
            [⟨ex.2, []⟩, ⟨cv.2, []⟩, ⟨tr.2, []⟩, ⟨fs4, []⟩, ⟨fs5, []⟩])

/-- One iteration of the `process_folder` loop, state part only. -/
def folderStep (c : FolderCfg) (st : BState) (f : String) : BState :=
  (folderStepTrace c st f).1

/-- Model of `process_folder` (src/main.py lines 95-131): filter the
entries, then run the per-item loop left to right. -/
def process_folder (c : FolderCfg) (entries : List DirEntry) (fs0 : FS) :
    BState :=
  ((videoFiles entries).map (fun e => e.name)).foldl (folderStep c)
    ⟨fs0, [], []⟩

/-- The signal-visible snapshots of a whole `process_folder` run. -/
def folderTrace (c : FolderCfg) (entries : List DirEntry) (fs0 : FS) :
    List Snap :=
  (((videoFiles entries).map (fun e => e.name)).foldl
    (fun acc f =>
      ((folderStepTrace c acc.1 f).1, acc.2 ++ (folderStepTrace c acc.1 f).2))
    (⟨⟨fs0, [], []⟩, []⟩ : BState × List Snap)).2

/-- Every path a `process_folder` run may create or delete: the
transcript and the two scratch paths of each processed file. -/
def folderFootprint (c : FolderCfg) (entries : List DirEntry) :
    List String :=
  ((videoFiles entries).map (fun e => e.name)).flatMap
    (fun f => [c.outPath f, c.audioPath f, c.monoPath f])

/-- Stage environment in which every external call succeeds. -/
def stageEnvOkW : StageEnv := ⟨true, true, true, true, "AUD", "MONO", "TXT"⟩

/-- Stage environment in which the ffmpeg extraction call raises. -/
def stageEnvExFailW : StageEnv := ⟨false, true, true, true, "AUD", "MONO", "TXT"⟩

/-- Stage environment in which the mono downmix call raises. -/
def stageEnvCvFailW : StageEnv := ⟨true, false, true, true, "AUD", "MONO", "TXT"⟩

/-- Stage environment in which the grammar-correction call raises. -/
def stageEnvCorrFailW : StageEnv := ⟨true, true, true, false, "AUD", "MONO", "TXT"⟩

/-- A successful HTTP response. -/
def respOkW : HTTPResponse := ⟨200, ['d', 'l']⟩

/-- A 204 No Content response: a success status in the sense of HTTP. -/
def resp204W : HTTPResponse := ⟨204, ['d', 'l']⟩

/-- A single-item job with a plain local input. -/
def jLocalW : SingleJob := ⟨"in.mp4", "out.txt", "u1", "T"⟩

/-- A single-item job whose input is a local file name starting with
"http" (classified as remote by line 177). -/
def jHttpNameW : SingleJob := ⟨"httpv.mp4", "out.txt", "u1", "T"⟩

/-- A single-item job whose input is a genuine URL. -/
def jUrlW : SingleJob := ⟨"https://example.com/a.mp4", "out.txt", "u1", "T"⟩

/-- Filesystem containing only the local input of `jLocalW`. -/
def fsLocalW : FS := [("in.mp4", "VID")]

/-- Filesystem containing only the local input of `jHttpNameW`. -/
def fsHttpNameW : FS := [("httpv.mp4", "VID")]

/-- Run environment: fetch succeeds, every stage succeeds. -/
def envOkW : RunEnv := ⟨[respOkW], stageEnvOkW⟩

/-- Run environment: fetch succeeds, downmix raises. -/
def envCvFailW : RunEnv := ⟨[respOkW], stageEnvCvFailW⟩

/-- Run environment: fetch succeeds, extraction raises. -/
def envExFailW : RunEnv := ⟨[respOkW], stageEnvExFailW⟩

/-- Filesystem used by the cleanup examples: two existing scratch files. -/
def fsC6 : FS := [("ta", "x"), ("tb", "y")]

/-- Filesystem in which the destination of `jLocalW` already exists. -/
def fsOutExistsW : FS := [("out.txt", "OLD"), ("in.mp4", "VID")]

/-- A folder listing: two videos, a text file, and a directory whose name
looks like a video. -/
def entriesW : List DirEntry :=
  [⟨"a.mp4", true⟩, ⟨"b.mkv", true⟩, ⟨"notes.txt", true⟩, ⟨"sub.mp4", false⟩]

/-- Folder configuration in which "a.mp4" fails at extraction and every
other file succeeds; uuid tokens are the file names themselves. -/
def folderCfgW : FolderCfg :=
  ⟨"in", "out", "T", fun f => f,
    fun f => if f = "a.mp4" then stageEnvExFailW else stageEnvOkW⟩

theorem FS.read_remove_self (fs : FS) (p : String) :
    FS.read (FS.remove fs p) p = none := by
  induction fs with
  | nil => rfl
  | cons e es ih =>
    by_cases h : e.1 = p <;> simp [FS.remove, FS.read, h, ih]

theorem FS.read_remove_ne (fs : FS) {p q : String} (h : q ≠ p) :
    FS.read (FS.remove fs p) q = FS.read fs q := by
  induction fs with
  | nil => rfl
  | cons e es ih =>
    by_cases he : e.1 = p
    · have hne : ¬ e.1 = q := by
        intro hq
        exact h (hq ▸ he ▸ rfl)
      simp [FS.remove, FS.read, he, hne, ih]
      rw [if_neg (fun hpq => h hpq.symm)]
    · by_cases hq : e.1 = q <;> simp [FS.remove, FS.read, he, hq, h, ih]

theorem FS.read_write_self (fs : FS) (p c : String) :
    FS.read (FS.write fs p c) p = some c := by
  simp [FS.write, FS.read]

theorem FS.read_write_ne (fs : FS) {p q : String} (c : String) (h : q ≠ p) :
    FS.read (FS.write fs p c) q = FS.read fs q := by
  have hne : ¬ p = q := fun hpq => h hpq.symm
  simp [FS.write, FS.read, hne, FS.read_remove_ne fs h]

theorem FS.existsp_remove_self (fs : FS) (p : String) :
    FS.existsp (FS.remove fs p) p = false := by
  simp [FS.existsp, FS.read_remove_self]

theorem FS.existsp_remove_ne (fs : FS) {p q : String} (h : q ≠ p) :
    FS.existsp (FS.remove fs p) q = FS.existsp fs q := by
  simp [FS.existsp, FS.read_remove_ne fs h]

theorem FS.existsp_write_self (fs : FS) (p c : String) :
    FS.existsp (FS.write fs p c) p = true := by
  simp [FS.existsp, FS.read_write_self]

theorem FS.existsp_write_ne (fs : FS) {p q : String} (c : String) (h : q ≠ p) :
    FS.existsp (FS.write fs p c) q = FS.existsp fs q := by
  simp [FS.existsp, FS.read_write_ne fs c h]

theorem FS.read_eq_none_of_existsp_false {fs : FS} {p : String}
    (h : FS.existsp fs p = false) : FS.read fs p = none := by
  unfold FS.existsp at h
  cases hr : FS.read fs p with
  | none => rfl
  | some c => rw [hr] at h; simp at h

theorem cleanup_ok (failing : List String) :
    ∀ (files : List String) (fs : FS), (∀ p ∈ files, p ∉ failing) →
      (cleanup_temp_files failing fs files).1 = false ∧
      ∀ q, FS.read (cleanup_temp_files failing fs files).2 q =
        if q ∈ files then none else FS.read fs q := by
  intro files
  induction files with
  | nil => intro fs _; simp [cleanup_temp_files]
  | cons p ps ih =>
    intro fs hf
    have hp : p ∉ failing := hf p (by simp)
    have hps : ∀ x ∈ ps, x ∉ failing := fun x hx => hf x (by simp [hx])
    by_cases hex : FS.existsp fs p = true
    · have := ih (FS.remove fs p) hps
      refine ⟨by simp [cleanup_temp_files, hex, hp, this.1], ?_⟩
      intro q
      rw [show cleanup_temp_files failing fs (p :: ps) =
            cleanup_temp_files failing (FS.remove fs p) ps by
            simp [cleanup_temp_files, hex, hp]]
      rw [this.2 q]
      by_cases hqps : q ∈ ps
      · simp [hqps]
      · by_cases hqp : q = p
        · simp [hqps, hqp, FS.read_remove_self]
        · simp [hqps, hqp, FS.read_remove_ne fs hqp]
    · have hex' : FS.existsp fs p = false := by
        cases h : FS.existsp fs p
        · rfl
        · exact absurd h hex
      have := ih fs hps
      refine ⟨by simp [cleanup_temp_files, hex', this.1], ?_⟩
      intro q
      rw [show cleanup_temp_files failing fs (p :: ps) =
            cleanup_temp_files failing fs ps by
            simp [cleanup_temp_files, hex']]
      rw [this.2 q]
      by_cases hqps : q ∈ ps
      · simp [hqps]
      · by_cases hqp : q = p
        · subst hqp
          simp [hqps, FS.read_eq_none_of_existsp_false hex']
        · simp [hqps, hqp]

theorem cleanup_raise {failing : List String} {p : String} (ys : List String) :
    ∀ (xs : List String) (fs : FS), (∀ x ∈ xs, x ∉ failing) → p ∈ failing →
      p ∉ xs → FS.existsp fs p = true →
      cleanup_temp_files failing fs (xs ++ p :: ys) =
        (true, (cleanup_temp_files failing fs xs).2) := by
  intro xs
  induction xs with
  | nil =>
    intro fs _ hpf _ hex
    simp [cleanup_temp_files, hex, hpf]
  | cons x xs ih =>
    intro fs hxs hpf hpx hex
    have hx : x ∉ failing := hxs x (by simp)
    have hxs' : ∀ y ∈ xs, y ∉ failing := fun y hy => hxs y (by simp [hy])
    have hpx' : p ∉ xs := fun h => hpx (by simp [h])
    have hpxh : p ≠ x := fun h => hpx (by simp [h])
    by_cases hxe : FS.existsp fs x = true
    · have hex' : FS.existsp (FS.remove fs x) p = true := by
        rw [FS.existsp_remove_ne fs hpxh]; exact hex
      simp only [List.cons_append, cleanup_temp_files, hxe, if_true, hx,
        if_neg (by exact hx)]
      rw [if_neg (by simp [hx])]
      exact ih (FS.remove fs x) hxs' hpf hpx' hex'
    · have hxe' : FS.existsp fs x = false := by
        cases h : FS.existsp fs x
        · rfl
        · exact absurd h hxe
      simp only [List.cons_append, cleanup_temp_files, hxe']
      rw [if_neg (by simp [hxe'])]
      rw [if_neg (by simp [hxe'])]
      exact ih fs hxs' hpf hpx' hex

theorem chunksOf_flatten (n : Nat) (l : List Char) :
    (chunksOf n l).flatten = l := by
  match l with
  | [] => simp [chunksOf]
  | c :: cs =>
    rw [chunksOf]
    simp only [List.flatten_cons]
    rw [chunksOf_flatten n (cs.drop n)]
    simp [List.take_append_drop]
termination_by l.length
decreasing_by simp [List.length_drop]; omega

theorem aud_transcribe_fail (env : StageEnv) (audio_path output_txt_path : String)
    (fs : FS) (h : env.transcribeOk = false ∨ env.correctOk = false) :
    transcribe_audio env audio_path output_txt_path fs = (false, fs) := by
  cases htr : env.transcribeOk with
  | false => simp [transcribe_audio, htr]
  | true =>
    rcases h with h | h
    · rw [htr] at h; exact absurd h (by decide)
    · simp [transcribe_audio, htr, h]

/-- C7: for every Job, the transcribe-and-correct stage writes nothing to
the destination file unless both the speech-to-text call and the
grammar-correction call succeed: if either raises, `transcribe_audio`
raises with the filesystem exactly as it was, so the destination is
neither created nor partially written (the text is held in memory and
written only after both calls return). -/
theorem audiowise_C7 (env : StageEnv) (audio_path output_txt_path : String)
    (fs : FS) (h : env.transcribeOk = false ∨ env.correctOk = false) :
    transcribe_audio env audio_path output_txt_path fs = (false, fs) :=
  aud_transcribe_fail env audio_path output_txt_path fs h

/-- Witness for C7: grammar correction raises, the destination stays
absent. -/
theorem audiowise_C7_w :
    transcribe_audio stageEnvCorrFailW ("m.mp3") ("d.txt") [] = (false, []) :=
  audiowise_C7 stageEnvCorrFailW ("m.mp3") ("d.txt") [] (Or.inr rfl)

/-- C6 (counterexample): with a filesystem error on the first path,
`cleanup_temp_files` raises — contradicting "never raises" — and the
remaining existing path "tb" is not deleted: the error short-circuits the
remaining deletions. -/
theorem audiowise_C6_cex :
    (cleanup_temp_files ["ta"] fsC6 ["ta", "tb"]).1 = true ∧
      FS.existsp (cleanup_temp_files ["ta"] fsC6 ["ta", "tb"]).2 ("tb") = true := by
  constructor <;> decide

/-- C6 (amended): when no deletion raises a filesystem error,
`cleanup_temp_files` removes every existing path in the list, tolerates
already-missing paths without error, and returns normally; but a
filesystem error while deleting one path propagates as an exception and
the deletions of the remaining paths are not attempted. -/
theorem audiowise_C6_amended (failing : List String) (files : List String)
    (fs : FS) :
    ((∀ p ∈ files, p ∉ failing) →
      (cleanup_temp_files failing fs files).1 = false ∧
      ∀ q, FS.read (cleanup_temp_files failing fs files).2 q =
        if q ∈ files then none else FS.read fs q) ∧
    (∀ xs p ys, files = xs ++ p :: ys → (∀ x ∈ xs, x ∉ failing) →
      p ∈ failing → p ∉ xs → FS.existsp fs p = true →
      cleanup_temp_files failing fs files =
        (true, (cleanup_temp_files failing fs xs).2)) := by
  refine ⟨fun h => cleanup_ok failing files fs h, ?_⟩
  intro xs p ys hf hxs hpf hpx hex
  subst hf
  exact cleanup_raise ys xs fs hxs hpf hpx hex

/-- Witness for C6: a fault-free cleanup removes both existing paths and
tolerates the missing "tc"; a fault on "tb" stops after removing "ta". -/
theorem audiowise_C6_w :
    (cleanup_temp_files [] fsC6 ["ta", "tb", "tc"]).1 = false ∧
      FS.read (cleanup_temp_files [] fsC6 ["ta", "tb", "tc"]).2 ("tb") = none ∧
      cleanup_temp_files ["tb"] fsC6 ["ta", "tb"] =
        (true, (cleanup_temp_files ["tb"] fsC6 ["ta"]).2) := by
  have h1 := (audiowise_C6_amended [] (["ta", "tb", "tc"]) fsC6).1 (by decide)
  have h2 := (audiowise_C6_amended (["tb"]) (["ta", "tb"]) fsC6).2
    ["ta"] ("tb") [] (by decide) (by decide) (by decide) (by decide) (by decide)
  refine ⟨h1.1, ?_, h2⟩
  have h3 := h1.2 ("tb")
  rw [if_pos (by decide)] at h3
  exact h3

/-- C8 (counterexample): a 204 response carries a success HTTP status,
yet `download_video` fails on it (the code tests `status_code == 200`,
not success), leaving the destination unwritten. -/
theorem audiowise_C8_cex :
    isHttpSuccess 204 ∧
      download_video [resp204W] ("http://u") ("d") [] = (false, []) := by
  constructor
  · constructor <;> decide
  · decide

/-- C8 (amended): a fetch makes a single attempt — its outcome depends
only on the first pending response — succeeds exactly when that response
has status 200 (any other status, success or not, raises), on success
leaves the full payload at the destination path assembled from 1024-byte
chunks, and on failure leaves the filesystem untouched. -/
theorem audiowise_C8_amended (r : HTTPResponse) (rs rs' : List HTTPResponse)
    (url dest : String) (fs : FS) :
    ((download_video (r :: rs) url dest fs).1 = true ↔ r.status = 200) ∧
    (r.status = 200 →
      FS.read (download_video (r :: rs) url dest fs).2 dest =
        some (String.mk r.body)) ∧
    (r.status ≠ 200 → download_video (r :: rs) url dest fs = (false, fs)) ∧
    download_video (r :: rs) url dest fs =
      download_video (r :: rs') url dest fs := by
  by_cases h : r.status = 200
  · simp [download_video, h, FS.read_write_self, chunksOf_flatten]
  · simp [download_video, h]

/-- Witness for C8: a 200 response deposits its full body at the
destination. -/
theorem audiowise_C8_w :
    FS.read (download_video [respOkW] ("http://u") ("d") []).2 ("d") =
      some (String.mk ['d', 'l']) :=
  (audiowise_C8_amended respOkW [] [] ("http://u") ("d") []).2.1 rfl

theorem FS.existsp_remove_of_false {fs : FS} {p : String} (q : String)
    (h : FS.existsp fs p = false) :
    FS.existsp (FS.remove fs q) p = false := by
  by_cases hpq : p = q
  · subst hpq; exact FS.existsp_remove_self fs p
  · rw [FS.existsp_remove_ne fs hpq]; exact h

theorem aud_trace_skip (j : SingleJob) (env : RunEnv) (fs0 : FS)
    (h : FS.existsp fs0 j.video_path = false ∨
      FS.existsp fs0 j.output_path = true) :
    mainSingleTrace j env fs0 = [⟨fs0, []⟩] := by
  unfold mainSingleTrace
  rcases h with h | h
  · rw [if_pos h]
  · by_cases h1 : FS.existsp fs0 j.video_path = false
    · rw [if_pos h1]
    · rw [if_neg h1, if_pos h]

theorem aud_registry_shape (j : SingleJob) (env : RunEnv) (fs0 : FS) :
    ∀ s ∈ mainSingleTrace j env fs0,
      s.registry = [] ∨
        s.registry = [j.output_audio_path, j.mono_audio_path] := by
  intro s hs
  unfold mainSingleTrace at hs
  split at hs
  · simp at hs; simp [hs]
  · split at hs
    · simp at hs; simp [hs]
    · simp only [List.mem_cons, List.mem_map] at hs
      rcases hs with hs | ⟨fs, _, hs⟩
      · simp [hs]
      · right; rw [← hs]

theorem aud_run_frame (j : SingleJob) (env : RunEnv) (fs0 : FS) (q : String)
    (hq1 : q ≠ j.output_audio_path) (hq2 : q ≠ j.mono_audio_path)
    (hq3 : q ≠ j.output_path)
    (hq4 : pyStartsWith j.video_path ("http") = true → q ≠ j.scratchVideo) :
    ∀ fs ∈ mainSingleRunFS j env fs0, FS.read fs q = FS.read fs0 q := by
  by_cases hrem : pyStartsWith j.video_path ("http") = true
  · have hqv : q ≠ j.scratchVideo := hq4 hrem
    have hqtv : q ≠ j.temp_video_path := by
      unfold SingleJob.temp_video_path
      rw [if_pos hrem]
      exact hqv
    cases hresp : env.responses with
    | nil =>
      unfold mainSingleRunFS
      rw [hresp]
      simp [hrem, download_video, List.forall_mem_cons]
    | cons r rs =>
      by_cases hst : r.status = 200
      · unfold mainSingleRunFS
        rw [hresp]
        cases hex : env.stage.extractOk with
        | false =>
          simp [hrem, download_video, hst, extract_audio, hex,
            List.forall_mem_cons, FS.read_write_ne, hqtv]
        | true =>
          cases hcv : env.stage.convertOk with
          | false =>
            simp [hrem, download_video, hst, extract_audio, hex,
              convert_to_mono, hcv, List.forall_mem_cons,
              FS.read_write_ne, hqtv, hq1]
          | true =>
            cases htr : env.stage.transcribeOk with
            | false =>
              simp [hrem, download_video, hst, extract_audio, hex,
                convert_to_mono, hcv, transcribe_audio, htr,
                List.forall_mem_cons, FS.read_write_ne, hqtv, hq1, hq2]
            | true =>
              cases hco : env.stage.correctOk with
              | false =>
                simp [hrem, download_video, hst, extract_audio, hex,
                  convert_to_mono, hcv, transcribe_audio, htr, hco,
                  List.forall_mem_cons, FS.read_write_ne, hqtv, hq1, hq2]
              | true =>
                simp [hrem, download_video, hst, extract_audio, hex,
                  convert_to_mono, hcv, transcribe_audio, htr, hco,
                  List.forall_mem_cons, FS.read_write_ne, FS.read_remove_ne,
                  hqtv, hq1, hq2, hq3]
      · unfold mainSingleRunFS
        rw [hresp]
        simp [hrem, download_video, hst, List.forall_mem_cons]
  · have hrem' : pyStartsWith j.video_path ("http") = false := by
      cases h : pyStartsWith j.video_path ("http")
      · rfl
      · exact absurd h hrem
    have hqtv : q ≠ j.temp_video_path → True := fun _ => trivial
    unfold mainSingleRunFS
    cases hex : env.stage.extractOk with
    | false =>
      simp [hrem', extract_audio, hex, List.forall_mem_cons]
    | true =>
      cases hcv : env.stage.convertOk with
      | false =>
        simp [hrem', extract_audio, hex, convert_to_mono, hcv,
          List.forall_mem_cons, FS.read_write_ne, hq1]
      | true =>
        cases htr : env.stage.transcribeOk with
        | false =>
          simp [hrem', extract_audio, hex, convert_to_mono, hcv,
            transcribe_audio, htr, List.forall_mem_cons,
            FS.read_write_ne, hq1, hq2]
        | true =>
          cases hco : env.stage.correctOk with
          | false =>
            simp [hrem', extract_audio, hex, convert_to_mono, hcv,
              transcribe_audio, htr, hco, List.forall_mem_cons,
              FS.read_write_ne, hq1, hq2]
          | true =>
            simp [hrem', extract_audio, hex, convert_to_mono, hcv,
              transcribe_audio, htr, hco, List.forall_mem_cons,
              FS.read_write_ne, FS.read_remove_ne, hq1, hq2, hq3]

theorem aud_final_success (j : SingleJob) (env : RunEnv) (fs0 : FS)
    (hin : FS.existsp fs0 j.video_path = true)
    (hout : FS.existsp fs0 j.output_path = false)
    (hok : stageAllOk env.stage) (hf : fetchOk j env) :
    scratchFree j (mainSingleFinal j env fs0).fs := by
  obtain ⟨hex, hcv, htr, hco⟩ := hok
  intro p hp
  by_cases hrem : pyStartsWith j.video_path ("http") = true
  · obtain ⟨r, rs, hresp, hstat⟩ := hf hrem
    unfold SingleJob.scratchPaths at hp
    rw [if_pos hrem] at hp
    simp only [List.cons_append, List.nil_append, List.mem_cons,
      List.not_mem_nil, or_false] at hp
    rcases hp with rfl | rfl | rfl <;>
      simp [mainSingleFinal, mainSingleTrace, mainSingleRunFS, hin, hout,
        hrem, hresp, download_video, hstat, extract_audio, hex,
        convert_to_mono, hcv, transcribe_audio, htr, hco,
        SingleJob.temp_video_path, List.getLastD_cons,
        FS.existsp_remove_self, FS.existsp_remove_of_false]
  · have hrem' : pyStartsWith j.video_path ("http") = false := by
      cases h : pyStartsWith j.video_path ("http")
      · rfl
      · exact absurd h hrem
    unfold SingleJob.scratchPaths at hp
    rw [if_neg (by simp [hrem'])] at hp
    simp only [List.nil_append, List.mem_cons, List.not_mem_nil,
      or_false] at hp
    rcases hp with rfl | rfl <;>
      simp [mainSingleFinal, mainSingleTrace, mainSingleRunFS, hin, hout,
        hrem', extract_audio, hex, convert_to_mono, hcv,
        transcribe_audio, htr, hco, List.getLastD_cons,
        FS.existsp_remove_self, FS.existsp_remove_of_false]

theorem aud_final_convfail (j : SingleJob) (env : RunEnv) (fs0 : FS)
    (hin : FS.existsp fs0 j.video_path = true)
    (hout : FS.existsp fs0 j.output_path = false)
    (hex : env.stage.extractOk = true) (hcv : env.stage.convertOk = false)
    (hf : fetchOk j env) :
    FS.existsp (mainSingleFinal j env fs0).fs j.output_audio_path = true := by
  by_cases hrem : pyStartsWith j.video_path ("http") = true
  · obtain ⟨r, rs, hresp, hstat⟩ := hf hrem
    simp [mainSingleFinal, mainSingleTrace, mainSingleRunFS, hin, hout,
      hrem, hresp, download_video, hstat, extract_audio, hex,
      convert_to_mono, hcv, List.getLastD_cons, FS.existsp_write_self]
  · have hrem' : pyStartsWith j.video_path ("http") = false := by
      cases h : pyStartsWith j.video_path ("http")
      · rfl
      · exact absurd h hrem
    simp [mainSingleFinal, mainSingleTrace, mainSingleRunFS, hin, hout,
      hrem', extract_audio, hex, convert_to_mono, hcv,
      List.getLastD_cons, FS.existsp_write_self]

/-- C2: a Job whose destination file already exists when the Job begins
is skipped entirely, in both modes: in single-item mode the run returns
immediately with the filesystem untouched and an empty registry (no
scratch path allocated, no stage run), and in folder mode the item's
loop iteration leaves the driver state unchanged — so running the
pipeline a second time against the same destination leaves it
unmodified. -/
theorem audiowise_C2 :
    (∀ (j : SingleJob) (env : RunEnv) (fs0 : FS),
      FS.existsp fs0 j.output_path = true →
      mainSingleTrace j env fs0 = [⟨fs0, []⟩]) ∧
    (∀ (c : FolderCfg) (st : BState) (f : String),
      FS.existsp st.fs (c.outPath f) = true →
      folderStep c st f = st) := by
  constructor
  · intro j env fs0 h
    exact aud_trace_skip j env fs0 (Or.inr h)
  · intro c st f h
    simp [folderStep, folderStepTrace, h]

/-- Witness for C2: an existing "out.txt" (single mode) and an existing
"out/a.txt" (folder mode) cause the Job to be skipped with the state
unchanged. -/
theorem audiowise_C2_w :
    mainSingleTrace jLocalW envOkW fsOutExistsW = [⟨fsOutExistsW, []⟩] ∧
      folderStep folderCfgW ⟨[("out/a.txt", "OLD")], [], []⟩ ("a.mp4") =
        ⟨[("out/a.txt", "OLD")], [], []⟩ := by
  constructor
  · exact (audiowise_C2).1 jLocalW envOkW fsOutExistsW (by decide)
  · exact (audiowise_C2).2 folderCfgW ⟨[("out/a.txt", "OLD")], [], []⟩
      ("a.mp4") (by decide)

/-- C1 (counterexample): on the handled-error exit path no scratch path
is removed — when the downmix stage fails for a local job, the extracted
audio file persists after `main` returns (the single-item `except` arm
only prints) — and on the signal exit path the downloaded video is not
removed: at the snapshot right after the download, the fetched scratch
video exists but survives the handler's `cleanup_temp_files` call over
the registry. -/
theorem audiowise_C1_cex :
    (¬ scratchFree jLocalW (mainSingleFinal jLocalW envCvFailW fsLocalW).fs) ∧
    FS.existsp ((mainSingleTrace jHttpNameW envOkW fsHttpNameW).getD 2
        ⟨[], []⟩).fs jHttpNameW.scratchVideo = true ∧
    FS.existsp (cleanup_temp_files []
        ((mainSingleTrace jHttpNameW envOkW fsHttpNameW).getD 2 ⟨[], []⟩).fs
        ((mainSingleTrace jHttpNameW envOkW fsHttpNameW).getD 2
          ⟨[], []⟩).registry).2 jHttpNameW.scratchVideo = true := by
  refine ⟨by decide, by decide, by decide⟩

/-- C1 (amended): scratch-path removal before the single-item processing
returns is guaranteed only on the success exit path, where every scratch
path (downloaded video when remote, audio, mono) is removed; on a
handled stage error no cleanup runs, so scratch files created before the
failure persist (shown for a downmix failure: the audio file remains);
and the registry a signal handler would clean only ever holds the audio
and mono paths, never the downloaded-video path. -/
theorem audiowise_C1_amended (j : SingleJob) (env : RunEnv) (fs0 : FS)
    (hin : FS.existsp fs0 j.video_path = true)
    (hout : FS.existsp fs0 j.output_path = false) :
    (stageAllOk env.stage → fetchOk j env →
      scratchFree j (mainSingleFinal j env fs0).fs) ∧
    (env.stage.extractOk = true → env.stage.convertOk = false →
      fetchOk j env →
      FS.existsp (mainSingleFinal j env fs0).fs j.output_audio_path = true) ∧
    (∀ s ∈ mainSingleTrace j env fs0, ∀ p ∈ s.registry,
      p = j.output_audio_path ∨ p = j.mono_audio_path) := by
  refine ⟨fun hok hf => aud_final_success j env fs0 hin hout hok hf,
    fun hex hcv hf => aud_final_convfail j env fs0 hin hout hex hcv hf, ?_⟩
  intro s hs p hp
  rcases aud_registry_shape j env fs0 s hs with h | h
  · rw [h] at hp
    exact absurd hp (List.not_mem_nil p)
  · rw [h] at hp
    simp only [List.mem_cons, List.not_mem_nil, or_false] at hp
    exact hp

/-- Witness for C1 (amended): a successful local run ends scratch-free,
and a downmix failure leaves the audio scratch file behind. -/
theorem audiowise_C1_w :
    scratchFree jLocalW (mainSingleFinal jLocalW envOkW fsLocalW).fs ∧
      FS.existsp (mainSingleFinal jHttpNameW envCvFailW fsHttpNameW).fs
        jHttpNameW.output_audio_path = true := by
  constructor
  · exact (audiowise_C1_amended jLocalW envOkW fsLocalW (by decide)
      (by decide)).1 (by decide) (fun h => absurd h (by decide))
  · exact (audiowise_C1_amended jHttpNameW envCvFailW fsHttpNameW (by decide)
      (by decide)).2.1 rfl rfl (fun h => ⟨respOkW, [], rfl, rfl⟩)

theorem aud_trace_empty_reg (j : SingleJob) (env : RunEnv) (fs0 : FS) :
    ∀ s ∈ mainSingleTrace j env fs0, s.registry = [] → s.fs = fs0 := by
  intro s hs hreg
  unfold mainSingleTrace at hs
  split at hs
  · simp at hs; rw [hs]
  · split at hs
    · simp at hs; rw [hs]
    · simp only [List.mem_cons, List.mem_map] at hs
      rcases hs with hs | ⟨fs, _, hs⟩
      · rw [hs]
      · rw [← hs] at hreg; simp at hreg

theorem aud_trace_fs_mem (j : SingleJob) (env : RunEnv) (fs0 : FS) :
    ∀ s ∈ mainSingleTrace j env fs0,
      s.fs = fs0 ∨ s.fs ∈ mainSingleRunFS j env fs0 := by
  intro s hs
  unfold mainSingleTrace at hs
  split at hs
  · simp at hs; simp [hs]
  · split at hs
    · simp at hs; simp [hs]
    · simp only [List.mem_cons, List.mem_map] at hs
      rcases hs with hs | ⟨fs, hmem, hs⟩
      · simp [hs]
      · right; rw [← hs]; simpa using hmem

theorem aud_folderStepTrace_registry (c : FolderCfg) (st : BState)
    (f : String) : ∀ s ∈ (folderStepTrace c st f).2, s.registry = [] := by
  intro s hs
  dsimp only [folderStepTrace] at hs
  split at hs
  · simp at hs
  · split at hs
    · simp at hs
      rcases hs with rfl | rfl <;> rfl
    · split at hs
      · simp at hs
        rcases hs with rfl | rfl | rfl <;> rfl
      · split at hs
        · simp at hs
          rcases hs with rfl | rfl | rfl | rfl <;> rfl
        · simp at hs
          rcases hs with rfl | rfl | rfl | rfl | rfl <;> rfl

theorem aud_folderTrace_aux (c : FolderCfg) :
    ∀ (names : List String) (st : BState) (acc : List Snap),
      (∀ s ∈ acc, s.registry = []) →
      ∀ s ∈ (names.foldl
        (fun acc f => ((folderStepTrace c acc.1 f).1,
          acc.2 ++ (folderStepTrace c acc.1 f).2)) (st, acc)).2,
        s.registry = [] := by
  intro names
  induction names with
  | nil => intro st acc hacc; simpa using hacc
  | cons f fs ih =>
    intro st acc hacc
    simp only [List.foldl_cons]
    apply ih
    intro s hs
    rcases List.mem_append.mp hs with h | h
    · exact hacc s h
    · exact aud_folderStepTrace_registry c st f s h

theorem aud_folderTrace_registry (c : FolderCfg) (entries : List DirEntry)
    (fs0 : FS) : ∀ s ∈ folderTrace c entries fs0, s.registry = [] := by
  unfold folderTrace
  exact aud_folderTrace_aux c ((videoFiles entries).map (fun e => e.name))
    ⟨fs0, [], []⟩ [] (by simp)

/-- C3 (counterexample): the signal-handler registry does not contain
every scratch path allocated so far.  Single-item mode: for a job
classified as remote, at the snapshot right after the download the
fetched scratch video exists but is not in the registry.  Folder mode:
the handler reads the `temp_files` of `main`, which the folder branch
never extends, so mid-item snapshots have existing scratch audio with an
empty registry. -/
theorem audiowise_C3_cex :
    (¬ ∀ s ∈ mainSingleTrace jHttpNameW envOkW fsHttpNameW,
      ∀ p ∈ allocatedScratch jHttpNameW s.fs, p ∈ s.registry) ∧
    (¬ ∀ s ∈ folderTrace folderCfgW [⟨"b.mkv", true⟩] [],
      ∀ p ∈ ([folderCfgW.audioPath ("b.mkv"),
          folderCfgW.monoPath ("b.mkv")].filter
            (fun p => FS.existsp s.fs p)),
        p ∈ s.registry) := by
  constructor <;> decide

/-- C3 (amended): in single-item mode the handler registry contains, at
every point of the run, every currently-existing scratch path of the Job
except the downloaded-video path (the audio and mono paths are appended
before any stage runs; the downloaded-video path is never appended),
provided no scratch path pre-exists; in folder mode the registry read by
the signal handler stays empty for the whole batch, because
`process_folder` extends only its own local `temp_files` list. -/
theorem audiowise_C3_amended (j : SingleJob) (env : RunEnv) (fs0 : FS)
    (h0 : ∀ p ∈ j.scratchPaths, FS.existsp fs0 p = false)
    (c : FolderCfg) (entries : List DirEntry) (gfs : FS) :
    (∀ s ∈ mainSingleTrace j env fs0, ∀ p ∈ allocatedScratch j s.fs,
      p ≠ j.scratchVideo → p ∈ s.registry) ∧
    (∀ s ∈ folderTrace c entries gfs, s.registry = []) := by
  refine ⟨?_, aud_folderTrace_registry c entries gfs⟩
  intro s hs p hp hne
  have hp' := List.mem_filter.mp hp
  rcases aud_registry_shape j env fs0 s hs with hreg | hreg
  · have hfs := aud_trace_empty_reg j env fs0 s hs hreg
    rw [hfs] at hp'
    rw [h0 p hp'.1] at hp'
    exact absurd hp'.2 (by decide)
  · rw [hreg]
    have hmem := hp'.1
    unfold SingleJob.scratchPaths at hmem
    by_cases hrem : pyStartsWith j.video_path ("http") = true
    · rw [if_pos hrem] at hmem
      simp only [List.cons_append, List.nil_append, List.mem_cons,
        List.not_mem_nil, or_false] at hmem
      rcases hmem with rfl | rfl | rfl
      · exact absurd rfl hne
      · simp
      · simp
    · rw [if_neg hrem] at hmem
      simp only [List.nil_append, List.mem_cons, List.not_mem_nil,
        or_false] at hmem
      rcases hmem with rfl | rfl
      · simp
      · simp

/-- Witness for C3 (amended) at a concrete local job and a concrete
folder run. -/
theorem audiowise_C3_w :
    (∀ s ∈ mainSingleTrace jLocalW envOkW fsLocalW,
      ∀ p ∈ allocatedScratch jLocalW s.fs, p ≠ jLocalW.scratchVideo →
        p ∈ s.registry) ∧
    (∀ s ∈ folderTrace folderCfgW entriesW [], s.registry = []) :=
  audiowise_C3_amended jLocalW envOkW fsLocalW (by decide) folderCfgW
    entriesW []

/-- C5: for a Job whose source is local (not classified as remote), the
source path is never in the registry passed to scratch-file release, and
the source file is never modified or deleted at any point of the run,
on any exit path; moreover the fetched-video scratch path is never
registered for release at all (so it is only ever deleted on the success
path, where it was actually created). -/
theorem audiowise_C5 (j : SingleJob) (env : RunEnv) (fs0 : FS) :
    (pyStartsWith j.video_path ("http") = false →
      j.video_path ≠ j.output_audio_path →
      j.video_path ≠ j.mono_audio_path →
      j.video_path ≠ j.output_path →
      (∀ s ∈ mainSingleTrace j env fs0, j.video_path ∉ s.registry) ∧
      (∀ s ∈ mainSingleTrace j env fs0,
        FS.read s.fs j.video_path = FS.read fs0 j.video_path)) ∧
    (j.scratchVideo ≠ j.output_audio_path →
      j.scratchVideo ≠ j.mono_audio_path →
      ∀ s ∈ mainSingleTrace j env fs0, j.scratchVideo ∉ s.registry) := by
  constructor
  · intro hloc h1 h2 h3
    constructor
    · intro s hs hmem
      rcases aud_registry_shape j env fs0 s hs with hreg | hreg
      · rw [hreg] at hmem
        exact absurd hmem (List.not_mem_nil _)
      · rw [hreg] at hmem
        simp only [List.mem_cons, List.not_mem_nil, or_false] at hmem
        rcases hmem with hmem | hmem
        · exact h1 hmem
        · exact h2 hmem
    · intro s hs
      rcases aud_trace_fs_mem j env fs0 s hs with hfs | hfs
      · rw [hfs]
      · exact aud_run_frame j env fs0 j.video_path h1 h2 h3
          (fun hr => absurd hr (by simp [hloc])) s.fs hfs
  · intro h1 h2 s hs hmem
    rcases aud_registry_shape j env fs0 s hs with hreg | hreg
    · rw [hreg] at hmem
      exact absurd hmem (List.not_mem_nil _)
    · rw [hreg] at hmem
      simp only [List.mem_cons, List.not_mem_nil, or_false] at hmem
      rcases hmem with hmem | hmem
      · exact h1 hmem
      · exact h2 hmem

/-- Witness for C5 at a concrete local job. -/
theorem audiowise_C5_w :
    ((∀ s ∈ mainSingleTrace jLocalW envOkW fsLocalW,
        jLocalW.video_path ∉ s.registry) ∧
      (∀ s ∈ mainSingleTrace jLocalW envOkW fsLocalW,
        FS.read s.fs jLocalW.video_path =
          FS.read fsLocalW jLocalW.video_path)) ∧
    (∀ s ∈ mainSingleTrace jLocalW envOkW fsLocalW,
      jLocalW.scratchVideo ∉ s.registry) :=
  ⟨(audiowise_C5 jLocalW envOkW fsLocalW).1 (by decide) (by decide)
      (by decide) (by decide),
    (audiowise_C5 jLocalW envOkW fsLocalW).2 (by decide) (by decide)⟩

/-- C10 (counterexample): an input that starts with "http" is classified
as remote, yet the pipeline does not download it: a genuine URL fails
the `os.path.exists` input check of line 164, so `main` returns
immediately — the scratch video path never exists at any point of the
run and the filesystem is untouched. -/
theorem audiowise_C10_cex :
    pyStartsWith jUrlW.video_path ("http") = true ∧
      mainSingleTrace jUrlW envOkW [] = [⟨[], []⟩] ∧
      (∀ s ∈ mainSingleTrace jUrlW envOkW [],
        FS.existsp s.fs jUrlW.scratchVideo = false) := by
  refine ⟨by decide, by decide, by decide⟩

/-- C10 (amended): the remote/local classification is exactly the
startswith-"http" string test, but a fetch happens only for inputs that
also pass the `os.path.exists` check of line 164: an input that does not
exist on disk (every genuine URL) is rejected before any fetch; an
existing input that starts with "http" is downloaded to the scratch
video path, which exists mid-run and is removed on success; an existing
input that does not start with "http" is used directly as the video path
and the scratch video path is never created. -/
theorem audiowise_C10_amended (j : SingleJob) (env : RunEnv) (fs0 : FS) :
    (FS.existsp fs0 j.video_path = false →
      mainSingleTrace j env fs0 = [⟨fs0, []⟩]) ∧
    (pyStartsWith j.video_path ("http") = true →
      FS.existsp fs0 j.video_path = true →
      FS.existsp fs0 j.output_path = false →
      stageAllOk env.stage → fetchOk j env →
      (∃ s ∈ mainSingleTrace j env fs0,
        FS.existsp s.fs j.scratchVideo = true) ∧
      FS.existsp (mainSingleFinal j env fs0).fs j.scratchVideo = false) ∧
    (pyStartsWith j.video_path ("http") = false →
      j.temp_video_path = j.video_path ∧
      (j.scratchVideo ≠ j.output_audio_path →
        j.scratchVideo ≠ j.mono_audio_path →
        j.scratchVideo ≠ j.output_path →
        ∀ s ∈ mainSingleTrace j env fs0,
          FS.existsp s.fs j.scratchVideo = FS.existsp fs0 j.scratchVideo)) := by
  refine ⟨fun h => aud_trace_skip j env fs0 (Or.inl h), ?_, ?_⟩
  · intro hrem hin hout hok hf
    obtain ⟨r, rs, hresp, hstat⟩ := hf hrem
    constructor
    · refine ⟨⟨FS.write fs0 j.temp_video_path
        (String.mk ((chunksOf 1023 r.body).flatten)),
        [j.output_audio_path, j.mono_audio_path]⟩, ?_, ?_⟩
      · obtain ⟨hex, hcv, htr, hco⟩ := hok
        simp [mainSingleTrace, mainSingleRunFS, hin, hout, hrem, hresp,
          download_video, hstat, extract_audio, hex, convert_to_mono, hcv,
          transcribe_audio, htr, hco]
      · have : j.temp_video_path = j.scratchVideo := by
          unfold SingleJob.temp_video_path
          rw [if_pos hrem]
        rw [this, FS.existsp_write_self]
    · have hmem : j.scratchVideo ∈ j.scratchPaths := by
        unfold SingleJob.scratchPaths
        rw [if_pos hrem]
        simp
      exact aud_final_success j env fs0 hin hout hok hf j.scratchVideo hmem
  · intro hloc
    constructor
    · unfold SingleJob.temp_video_path
      rw [if_neg (by simp [hloc])]
    · intro h1 h2 h3 s hs
      rcases aud_trace_fs_mem j env fs0 s hs with hfs | hfs
      · rw [hfs]
      · unfold FS.existsp
        rw [aud_run_frame j env fs0 j.scratchVideo h1 h2 h3
          (fun hr => absurd hr (by simp [hloc])) s.fs hfs]

/-- Witness for C10 (amended): the existing local file "httpv.mp4" is
treated as remote (scratch video created mid-run, removed on success),
while "in.mp4" is used directly as the video path. -/
theorem audiowise_C10_w :
    (∃ s ∈ mainSingleTrace jHttpNameW envOkW fsHttpNameW,
      FS.existsp s.fs jHttpNameW.scratchVideo = true) ∧
    FS.existsp (mainSingleFinal jHttpNameW envOkW fsHttpNameW).fs
      jHttpNameW.scratchVideo = false ∧
    jLocalW.temp_video_path = jLocalW.video_path :=
  ⟨((audiowise_C10_amended jHttpNameW envOkW fsHttpNameW).2.1 (by decide)
      (by decide) (by decide) (by decide)
      (fun h => ⟨respOkW, [], rfl, rfl⟩)).1,
    ((audiowise_C10_amended jHttpNameW envOkW fsHttpNameW).2.1 (by decide)
      (by decide) (by decide) (by decide)
      (fun h => ⟨respOkW, [], rfl, rfl⟩)).2,
    ((audiowise_C10_amended jLocalW envOkW fsLocalW).2.2 (by decide)).1⟩

theorem aud_step_good (c : FolderCfg) (st : BState) (f : String)
    (hok : stageAllOk (c.envOf f))
    (hfresh : FS.existsp st.fs (c.outPath f) = false)
    (h1 : c.outPath f ≠ c.audioPath f) (h2 : c.outPath f ≠ c.monoPath f) :
    (folderStep c st f).log = st.log ∧
    (folderStep c st f).temp_files =
      st.temp_files ++ [c.audioPath f, c.monoPath f] ∧
    FS.read (folderStep c st f).fs (c.outPath f) =
      some (c.envOf f).correctedText ∧
    FS.existsp (folderStep c st f).fs (c.audioPath f) = false ∧
    FS.existsp (folderStep c st f).fs (c.monoPath f) = false ∧
    (∀ q, q ≠ c.outPath f → q ≠ c.audioPath f → q ≠ c.monoPath f →
      FS.read (folderStep c st f).fs q = FS.read st.fs q) := by
  obtain ⟨hex, hcv, htr, hco⟩ := hok
  have hstep : folderStep c st f =
      ⟨FS.remove (FS.remove (FS.write (FS.write (FS.write st.fs
          (c.audioPath f) (c.envOf f).audioContent)
          (c.monoPath f) (c.envOf f).monoContent)
          (c.outPath f) (c.envOf f).correctedText)
        (c.audioPath f)) (c.monoPath f),
        st.temp_files ++ [c.audioPath f, c.monoPath f], st.log⟩ := by
    simp [folderStep, folderStepTrace, hfresh, extract_audio, hex,
      convert_to_mono, hcv, transcribe_audio, htr, hco]
  rw [hstep]
  refine ⟨rfl, rfl, ?_, ?_, ?_, ?_⟩
  · rw [FS.read_remove_ne _ h2, FS.read_remove_ne _ h1, FS.read_write_self]
  · exact FS.existsp_remove_of_false _ (FS.existsp_remove_self _ _)
  · exact FS.existsp_remove_self _ _
  · intro q hq1 hq2 hq3
    rw [FS.read_remove_ne _ hq3, FS.read_remove_ne _ hq2,
      FS.read_write_ne _ _ hq1, FS.read_write_ne _ _ hq3,
      FS.read_write_ne _ _ hq2]

theorem aud_step_bad (c : FolderCfg) (st : BState) (f : String)
    (hbad : stageFails (c.envOf f))
    (hfresh : FS.existsp st.fs (c.outPath f) = false) :
    (folderStep c st f).log = st.log ++ [errLine f] ∧
    (folderStep c st f).temp_files =
      st.temp_files ++ [c.audioPath f, c.monoPath f] ∧
    (∀ q, FS.read (folderStep c st f).fs q =
      if q ∈ st.temp_files ++ [c.audioPath f, c.monoPath f] then none
      else FS.read st.fs q) := by
  have hclean := fun fs =>
    (cleanup_ok [] (st.temp_files ++ [c.audioPath f, c.monoPath f]) fs
      (by simp)).2
  cases hex : (c.envOf f).extractOk with
  | false =>
    have hstep : folderStep c st f =
        ⟨(cleanup_temp_files [] st.fs
            (st.temp_files ++ [c.audioPath f, c.monoPath f])).2,
          st.temp_files ++ [c.audioPath f, c.monoPath f],
          st.log ++ [errLine f]⟩ := by
      simp [folderStep, folderStepTrace, hfresh, extract_audio, hex]
    rw [hstep]
    exact ⟨rfl, rfl, hclean st.fs⟩
  | true =>
    cases hcv : (c.envOf f).convertOk with
    | false =>
      have hstep : folderStep c st f =
          ⟨(cleanup_temp_files []
              (FS.write st.fs (c.audioPath f) (c.envOf f).audioContent)
              (st.temp_files ++ [c.audioPath f, c.monoPath f])).2,
            st.temp_files ++ [c.audioPath f, c.monoPath f],
            st.log ++ [errLine f]⟩ := by
        simp [folderStep, folderStepTrace, hfresh, extract_audio, hex,
          convert_to_mono, hcv]
      rw [hstep]
      refine ⟨rfl, rfl, ?_⟩
      intro q
      rw [hclean _ q]
      by_cases hm : q ∈ st.temp_files ++ [c.audioPath f, c.monoPath f]
      · simp [hm]
      · have hqa : q ≠ c.audioPath f := fun he => hm (by rw [he]; simp)
        simp only [hm, if_false]
        exact FS.read_write_ne _ _ hqa
    | true =>
      have hfail : (c.envOf f).transcribeOk = false ∨
          (c.envOf f).correctOk = false := by
        rcases hbad with h | h | h | h
        · rw [hex] at h; exact absurd h (by decide)
        · rw [hcv] at h; exact absurd h (by decide)
        · exact Or.inl h
        · exact Or.inr h
      have htrr := aud_transcribe_fail (c.envOf f) (c.monoPath f)
        (c.outPath f)
        (FS.write (FS.write st.fs (c.audioPath f) (c.envOf f).audioContent)
          (c.monoPath f) (c.envOf f).monoContent) hfail
      have hstep : folderStep c st f =
          ⟨(cleanup_temp_files []
              (FS.write (FS.write st.fs (c.audioPath f)
                (c.envOf f).audioContent)
                (c.monoPath f) (c.envOf f).monoContent)
              (st.temp_files ++ [c.audioPath f, c.monoPath f])).2,
            st.temp_files ++ [c.audioPath f, c.monoPath f],
            st.log ++ [errLine f]⟩ := by
        simp [folderStep, folderStepTrace, hfresh, extract_audio, hex,
          convert_to_mono, hcv, htrr]
      rw [hstep]
      refine ⟨rfl, rfl, ?_⟩
      intro q
      rw [hclean _ q]
      by_cases hm : q ∈ st.temp_files ++ [c.audioPath f, c.monoPath f]
      · simp [hm]
      · have hqa : q ≠ c.audioPath f := fun he => hm (by rw [he]; simp)
        have hqm : q ≠ c.monoPath f := fun he => hm (by rw [he]; simp)
        simp only [hm, if_false]
        rw [FS.read_write_ne _ _ hqm, FS.read_write_ne _ _ hqa]

theorem aud_stage_total (e : StageEnv) : stageAllOk e ∨ stageFails e := by
  unfold stageAllOk stageFails
  cases e.extractOk <;> cases e.convertOk <;> cases e.transcribeOk <;>
    cases e.correctOk <;> simp

theorem aud_step_footprint (c : FolderCfg) (st : BState) (f q : String)
    (hq1 : q ≠ c.outPath f) (hq2 : q ≠ c.audioPath f)
    (hq3 : q ≠ c.monoPath f) (hqt : q ∉ st.temp_files) :
    FS.read (folderStep c st f).fs q = FS.read st.fs q ∧
    (∀ p ∈ (folderStep c st f).temp_files,
      p ∈ st.temp_files ∨ p = c.audioPath f ∨ p = c.monoPath f) := by
  by_cases hsk : FS.existsp st.fs (c.outPath f) = true
  · have hst : folderStep c st f = st := by
      simp [folderStep, folderStepTrace, hsk]
    rw [hst]
    exact ⟨rfl, fun p hp => Or.inl hp⟩
  · have hfresh : FS.existsp st.fs (c.outPath f) = false := by
      cases h : FS.existsp st.fs (c.outPath f)
      · rfl
      · exact absurd h hsk
    rcases aud_stage_total (c.envOf f) with hok | hbad
    · obtain ⟨hex, hcv, htr, hco⟩ := hok
      have hstep : folderStep c st f =
          ⟨FS.remove (FS.remove (FS.write (FS.write (FS.write st.fs
              (c.audioPath f) (c.envOf f).audioContent)
              (c.monoPath f) (c.envOf f).monoContent)
              (c.outPath f) (c.envOf f).correctedText)
            (c.audioPath f)) (c.monoPath f),
            st.temp_files ++ [c.audioPath f, c.monoPath f], st.log⟩ := by
        simp [folderStep, folderStepTrace, hfresh, extract_audio, hex,
          convert_to_mono, hcv, transcribe_audio, htr, hco]
      rw [hstep]
      constructor
      · rw [FS.read_remove_ne _ hq3, FS.read_remove_ne _ hq2,
          FS.read_write_ne _ _ hq1, FS.read_write_ne _ _ hq3,
          FS.read_write_ne _ _ hq2]
      · intro p hp
        rcases List.mem_append.mp hp with hp | hp
        · exact Or.inl hp
        · simp only [List.mem_cons, List.not_mem_nil, or_false] at hp
          exact Or.inr hp
    · obtain ⟨hlog, htemp, hreads⟩ := aud_step_bad c st f hbad hfresh
      constructor
      · rw [hreads q]
        have hm : ¬ q ∈ st.temp_files ++ [c.audioPath f, c.monoPath f] := by
          intro h
          rcases List.mem_append.mp h with h | h
          · exact hqt h
          · simp only [List.mem_cons, List.not_mem_nil, or_false] at h
            rcases h with h | h
            · exact hq2 h
            · exact hq3 h
        simp [hm]
      · intro p hp
        rw [htemp] at hp
        rcases List.mem_append.mp hp with hp | hp
        · exact Or.inl hp
        · simp only [List.mem_cons, List.not_mem_nil, or_false] at hp
          exact Or.inr hp

theorem aud_fold_footprint (c : FolderCfg) (F : List String) :
    ∀ (names : List String) (st : BState),
      (∀ f ∈ names,
        c.outPath f ∈ F ∧ c.audioPath f ∈ F ∧ c.monoPath f ∈ F) →
      (∀ p ∈ st.temp_files, p ∈ F) →
      ∀ q, q ∉ F →
        FS.read (names.foldl (folderStep c) st).fs q = FS.read st.fs q := by
  intro names
  induction names with
  | nil => intro st _ _ q _; rfl
  | cons f rest ih =>
    intro st hF htemp q hq
    simp only [List.foldl_cons]
    have hf := hF f (by simp)
    have hq1 : q ≠ c.outPath f := fun he => hq (he ▸ hf.1)
    have hq2 : q ≠ c.audioPath f := fun he => hq (he ▸ hf.2.1)
    have hq3 : q ≠ c.monoPath f := fun he => hq (he ▸ hf.2.2)
    have hqt : q ∉ st.temp_files := fun hm => hq (htemp q hm)
    obtain ⟨hread, htemps'⟩ := aud_step_footprint c st f q hq1 hq2 hq3 hqt
    have htemp' : ∀ p ∈ (folderStep c st f).temp_files, p ∈ F := by
      intro p hp
      rcases htemps' p hp with h | h | h
      · exact htemp p h
      · rw [h]; exact hf.2.1
      · rw [h]; exact hf.2.2
    rw [ih (folderStep c st f) (fun g hg => hF g (by simp [hg])) htemp' q hq,
      hread]

theorem aud_fold_main (c : FolderCfg) (bad : String)
    (hbadf : stageFails (c.envOf bad)) :
    ∀ (names : List String) (st : BState),
      (∀ f ∈ names, f ≠ bad → stageAllOk (c.envOf f)) →
      (∀ f ∈ names, FS.existsp st.fs (c.outPath f) = false) →
      (∀ f ∈ names, ∀ g ∈ names,
        c.outPath f ≠ c.audioPath g ∧ c.outPath f ≠ c.monoPath g) →
      (∀ f ∈ names, ∀ g ∈ names, f ≠ g → c.outPath f ≠ c.outPath g) →
      (∀ f ∈ names, ∀ g ∈ names, f ≠ g →
        c.audioPath f ≠ c.audioPath g ∧ c.audioPath f ≠ c.monoPath g ∧
        c.monoPath f ≠ c.audioPath g ∧ c.monoPath f ≠ c.monoPath g) →
      (∀ p ∈ st.temp_files, ∀ g ∈ names,
        p ≠ c.outPath g ∧ p ≠ c.audioPath g ∧ p ≠ c.monoPath g) →
      names.Nodup →
      ((∀ f ∈ names, f ≠ bad →
        FS.read (names.foldl (folderStep c) st).fs (c.outPath f) =
          some (c.envOf f).correctedText) ∧
       (bad ∈ names →
         errLine bad ∈ (names.foldl (folderStep c) st).log) ∧
       (bad ∈ names →
         FS.existsp (names.foldl (folderStep c) st).fs (c.audioPath bad)
           = false ∧
         FS.existsp (names.foldl (folderStep c) st).fs (c.monoPath bad)
           = false) ∧
       (∀ x ∈ st.log, x ∈ (names.foldl (folderStep c) st).log) ∧
       (∀ q, (∀ g ∈ names, q ≠ c.outPath g ∧ q ≠ c.audioPath g ∧
           q ≠ c.monoPath g) → q ∉ st.temp_files →
         FS.read (names.foldl (folderStep c) st).fs q = FS.read st.fs q) ∧
       (∀ q, FS.existsp st.fs q = false →
         (∀ g ∈ names, q ≠ c.outPath g ∧ q ≠ c.audioPath g ∧
           q ≠ c.monoPath g) →
         FS.existsp (names.foldl (folderStep c) st).fs q = false)) := by
  intro names
  induction names with
  | nil =>
    intro st _ _ _ _ _ _ _
    refine ⟨?_, ?_, ?_, ?_, ?_, ?_⟩
    · intro f hf; exact absurd hf (List.not_mem_nil f)
    · intro hb; exact absurd hb (List.not_mem_nil bad)
    · intro hb; exact absurd hb (List.not_mem_nil bad)
    · intro x hx; exact hx
    · intro q _ _; rfl
    · intro q h0 _; exact h0
  | cons f rest ih =>
    intro st hgood hfresh hdisj houtd htd htemps hnd
    simp only [List.foldl_cons]
    have hfrest : f ∉ rest := (List.nodup_cons.mp hnd).1
    have hndrest : rest.Nodup := (List.nodup_cons.mp hnd).2
    have hfreshf : FS.existsp st.fs (c.outPath f) = false :=
      hfresh f (by simp)
    have hgoodR : ∀ g ∈ rest, g ≠ bad → stageAllOk (c.envOf g) :=
      fun g hg => hgood g (by simp [hg])
    have hdisjR : ∀ x ∈ rest, ∀ g ∈ rest,
        c.outPath x ≠ c.audioPath g ∧ c.outPath x ≠ c.monoPath g :=
      fun x hx g hg => hdisj x (by simp [hx]) g (by simp [hg])
    have houtdR : ∀ x ∈ rest, ∀ g ∈ rest, x ≠ g →
        c.outPath x ≠ c.outPath g :=
      fun x hx g hg => houtd x (by simp [hx]) g (by simp [hg])
    have htdR : ∀ x ∈ rest, ∀ g ∈ rest, x ≠ g →
        c.audioPath x ≠ c.audioPath g ∧ c.audioPath x ≠ c.monoPath g ∧
        c.monoPath x ≠ c.audioPath g ∧ c.monoPath x ≠ c.monoPath g :=
      fun x hx g hg => htd x (by simp [hx]) g (by simp [hg])
    by_cases hfb : f = bad
    · subst hfb
      obtain ⟨hsl, hstmp, hsreads⟩ := aud_step_bad c st f hbadf hfreshf
      have hfreshR : ∀ g ∈ rest,
          FS.existsp (folderStep c st f).fs (c.outPath g) = false := by
        intro g hg
        unfold FS.existsp
        rw [hsreads (c.outPath g)]
        by_cases hm : c.outPath g ∈
            st.temp_files ++ [c.audioPath f, c.monoPath f]
        · rw [if_pos hm]; rfl
        · rw [if_neg hm]
          exact hfresh g (by simp [hg])
      have htempsR : ∀ p ∈ (folderStep c st f).temp_files, ∀ g ∈ rest,
          p ≠ c.outPath g ∧ p ≠ c.audioPath g ∧ p ≠ c.monoPath g := by
        intro p hp g hg
        rw [hstmp] at hp
        have hfg : f ≠ g := fun he => hfrest (he ▸ hg)
        rcases List.mem_append.mp hp with hp | hp
        · exact htemps p hp g (by simp [hg])
        · have hdg := hdisj g (by simp [hg]) f (by simp)
          have htg := htd f (by simp) g (by simp [hg]) hfg
          simp only [List.mem_cons, List.not_mem_nil, or_false] at hp
          rcases hp with rfl | rfl
          · exact ⟨fun he => hdg.1 he.symm, htg.1, htg.2.1⟩
          · exact ⟨fun he => hdg.2 he.symm, htg.2.2.1, htg.2.2.2⟩
      obtain ⟨ih1, ih2, ih3, ih4, ih5, ih6⟩ := ih (folderStep c st f)
        hgoodR hfreshR hdisjR houtdR htdR htempsR hndrest
      refine ⟨?_, ?_, ?_, ?_, ?_, ?_⟩
      · intro g hg hgb
        rcases List.mem_cons.mp hg with rfl | hg'
        · exact absurd rfl hgb
        · exact ih1 g hg' hgb
      · intro _
        apply ih4
        rw [hsl]
        exact List.mem_append.mpr (Or.inr (by simp))
      · intro _
        constructor
        · have h0 : FS.existsp (folderStep c st f).fs (c.audioPath f)
              = false := by
            unfold FS.existsp
            rw [hsreads (c.audioPath f), if_pos (by simp)]
            rfl
          refine ih6 (c.audioPath f) h0 ?_
          intro g hg
          have hbg : f ≠ g := fun he => hfrest (he ▸ hg)
          have hdg := hdisj g (by simp [hg]) f (by simp)
          have htg := htd f (by simp) g (by simp [hg]) hbg
          exact ⟨fun he => hdg.1 he.symm, htg.1, htg.2.1⟩
        · have h0 : FS.existsp (folderStep c st f).fs (c.monoPath f)
              = false := by
            unfold FS.existsp
            rw [hsreads (c.monoPath f), if_pos (by simp)]
            rfl
          refine ih6 (c.monoPath f) h0 ?_
          intro g hg
          have hbg : f ≠ g := fun he => hfrest (he ▸ hg)
          have hdg := hdisj g (by simp [hg]) f (by simp)
          have htg := htd f (by simp) g (by simp [hg]) hbg
          exact ⟨fun he => hdg.2 he.symm, htg.2.2.1, htg.2.2.2⟩
      · intro x hx
        apply ih4
        rw [hsl]
        exact List.mem_append.mpr (Or.inl hx)
      · intro q hq hqt
        have hqf := hq f (by simp)
        have hnm : ¬ q ∈ st.temp_files ++ [c.audioPath f, c.monoPath f] := by
          intro h
          rcases List.mem_append.mp h with h | h
          · exact hqt h
          · simp only [List.mem_cons, List.not_mem_nil, or_false] at h
            rcases h with h | h
            · exact hqf.2.1 h
            · exact hqf.2.2 h
        have hqt' : q ∉ (folderStep c st f).temp_files := by
          rw [hstmp]; exact hnm
        rw [ih5 q (fun g hg => hq g (by simp [hg])) hqt', hsreads q,
          if_neg hnm]
      · intro q h0 hq
        have h0' : FS.existsp (folderStep c st f).fs q = false := by
          unfold FS.existsp
          rw [hsreads q]
          by_cases hm : q ∈ st.temp_files ++ [c.audioPath f, c.monoPath f]
          · rw [if_pos hm]; rfl
          · rw [if_neg hm]; exact h0
        exact ih6 q h0' (fun g hg => hq g (by simp [hg]))
    · have hokf : stageAllOk (c.envOf f) := hgood f (by simp) hfb
      have hdff := hdisj f (by simp) f (by simp)
      obtain ⟨hsl, hstmp, hsout, hsa, hsm, hsfr⟩ :=
        aud_step_good c st f hokf hfreshf hdff.1 hdff.2
      have hfreshR : ∀ g ∈ rest,
          FS.existsp (folderStep c st f).fs (c.outPath g) = false := by
        intro g hg
        have hgf : g ≠ f := fun he => hfrest (he ▸ hg)
        have h1 : c.outPath g ≠ c.outPath f :=
          houtd g (by simp [hg]) f (by simp) hgf
        have h2 := hdisj g (by simp [hg]) f (by simp)
        unfold FS.existsp
        rw [hsfr (c.outPath g) h1 h2.1 h2.2]
        exact hfresh g (by simp [hg])
      have htempsR : ∀ p ∈ (folderStep c st f).temp_files, ∀ g ∈ rest,
          p ≠ c.outPath g ∧ p ≠ c.audioPath g ∧ p ≠ c.monoPath g := by
        intro p hp g hg
        rw [hstmp] at hp
        have hfg : f ≠ g := fun he => hfrest (he ▸ hg)
        rcases List.mem_append.mp hp with hp | hp
        · exact htemps p hp g (by simp [hg])
        · have hdg := hdisj g (by simp [hg]) f (by simp)
          have htg := htd f (by simp) g (by simp [hg]) hfg
          simp only [List.mem_cons, List.not_mem_nil, or_false] at hp
          rcases hp with rfl | rfl
          · exact ⟨fun he => hdg.1 he.symm, htg.1, htg.2.1⟩
          · exact ⟨fun he => hdg.2 he.symm, htg.2.2.1, htg.2.2.2⟩
      obtain ⟨ih1, ih2, ih3, ih4, ih5, ih6⟩ := ih (folderStep c st f)
        hgoodR hfreshR hdisjR houtdR htdR htempsR hndrest
      refine ⟨?_, ?_, ?_, ?_, ?_, ?_⟩
      · intro g hg hgb
        rcases List.mem_cons.mp hg with rfl | hg'
        · have hcond : ∀ x ∈ rest, g ≠ x →
              c.outPath g ≠ c.outPath x := fun x hx =>
            houtd g (by simp) x (by simp [hx])
          have hnt : c.outPath g ∉ (folderStep c st g).temp_files := by
            rw [hstmp]
            intro hmem
            rcases List.mem_append.mp hmem with hmem | hmem
            · exact (htemps _ hmem g (by simp)).1 rfl
            · simp only [List.mem_cons, List.not_mem_nil, or_false] at hmem
              rcases hmem with hmem | hmem
              · exact hdff.1 hmem
              · exact hdff.2 hmem
          rw [ih5 (c.outPath g) ?_ hnt]
          · exact hsout
          · intro x hx
            have hgx : g ≠ x := fun he => hfrest (he ▸ hx)
            exact ⟨hcond x hx hgx, (hdisj g (by simp) x (by simp [hx])).1,
              (hdisj g (by simp) x (by simp [hx])).2⟩
        · exact ih1 g hg' hgb
      · intro hb
        rcases List.mem_cons.mp hb with heq | hb'
        · exact absurd heq.symm hfb
        · exact ih2 hb'
      · intro hb
        rcases List.mem_cons.mp hb with heq | hb'
        · exact absurd heq.symm hfb
        · exact ih3 hb'
      · intro x hx
        apply ih4
        rw [hsl]
        exact hx
      · intro q hq hqt
        have hqf := hq f (by simp)
        have hqt' : q ∉ (folderStep c st f).temp_files := by
          rw [hstmp]
          intro hmem
          rcases List.mem_append.mp hmem with hmem | hmem
          · exact hqt hmem
          · simp only [List.mem_cons, List.not_mem_nil, or_false] at hmem
            rcases hmem with hmem | hmem
            · exact hqf.2.1 hmem
            · exact hqf.2.2 hmem
        rw [ih5 q (fun g hg => hq g (by simp [hg])) hqt',
          hsfr q hqf.1 hqf.2.1 hqf.2.2]
      · intro q h0 hq
        have hqf := hq f (by simp)
        have h0' : FS.existsp (folderStep c st f).fs q = false := by
          unfold FS.existsp
          rw [hsfr q hqf.1 hqf.2.1 hqf.2.2]
          exact h0
        exact ih6 q h0' (fun g hg => hq g (by simp [hg]))

/-- C4: for a folder where exactly one filtered item fails a stage, the
driver catches the exception, prints an error line naming the failing
file, releases that item's scratch paths, and continues: the transcript
of every other filtered item is still produced.  The hypotheses record
that no transcript pre-exists and that the derived per-item paths are
fresh and pairwise distinct (distinct output stems, uuid-derived scratch
names distinct and disjoint from the outputs). -/
theorem audiowise_C4 (c : FolderCfg) (entries : List DirEntry) (fs0 : FS)
    (bad : String)
    (hmem : bad ∈ (videoFiles entries).map (fun e => e.name))
    (hbadf : stageFails (c.envOf bad))
    (hgood : ∀ f ∈ (videoFiles entries).map (fun e => e.name), f ≠ bad →
      stageAllOk (c.envOf f))
    (hfresh : ∀ f ∈ (videoFiles entries).map (fun e => e.name),
      FS.existsp fs0 (c.outPath f) = false)
    (hdisj : ∀ f ∈ (videoFiles entries).map (fun e => e.name),
      ∀ g ∈ (videoFiles entries).map (fun e => e.name),
      c.outPath f ≠ c.audioPath g ∧ c.outPath f ≠ c.monoPath g)
    (houtd : ∀ f ∈ (videoFiles entries).map (fun e => e.name),
      ∀ g ∈ (videoFiles entries).map (fun e => e.name), f ≠ g →
      c.outPath f ≠ c.outPath g)
    (htd : ∀ f ∈ (videoFiles entries).map (fun e => e.name),
      ∀ g ∈ (videoFiles entries).map (fun e => e.name), f ≠ g →
      c.audioPath f ≠ c.audioPath g ∧ c.audioPath f ≠ c.monoPath g ∧
      c.monoPath f ≠ c.audioPath g ∧ c.monoPath f ≠ c.monoPath g)
    (hnd : ((videoFiles entries).map (fun e => e.name)).Nodup) :
    (∀ f ∈ (videoFiles entries).map (fun e => e.name), f ≠ bad →
      FS.read (process_folder c entries fs0).fs (c.outPath f) =
        some (c.envOf f).correctedText) ∧
    errLine bad ∈ (process_folder c entries fs0).log ∧
    FS.existsp (process_folder c entries fs0).fs (c.audioPath bad)
      = false ∧
    FS.existsp (process_folder c entries fs0).fs (c.monoPath bad)
      = false := by
  unfold process_folder
  obtain ⟨h1, h2, h3, _, _, _⟩ := aud_fold_main c bad hbadf
    ((videoFiles entries).map (fun e => e.name)) ⟨fs0, [], []⟩ hgood hfresh
    hdisj houtd htd (fun p hp => absurd hp (List.not_mem_nil p)) hnd
  exact ⟨h1, h2 hmem, (h3 hmem).1, (h3 hmem).2⟩

/-- Witness for C4: in the concrete folder, "a.mp4" fails extraction,
its error is logged and its scratch paths are absent, while "b.mkv"
still gets its transcript. -/
theorem audiowise_C4_w :
    (∀ f ∈ (videoFiles entriesW).map (fun e => e.name), f ≠ "a.mp4" →
      FS.read (process_folder folderCfgW entriesW []).fs
        (FolderCfg.outPath folderCfgW f) =
          some (StageEnv.correctedText (FolderCfg.envOf folderCfgW f))) ∧
    errLine ("a.mp4") ∈ (process_folder folderCfgW entriesW []).log ∧
    FS.existsp (process_folder folderCfgW entriesW []).fs
      (FolderCfg.audioPath folderCfgW ("a.mp4")) = false ∧
    FS.existsp (process_folder folderCfgW entriesW []).fs
      (FolderCfg.monoPath folderCfgW ("a.mp4")) = false :=
  audiowise_C4 folderCfgW entriesW [] ("a.mp4") (by decide) (by decide)
    (by decide) (by decide) (by decide) (by decide) (by decide) (by decide)

/-- C9: a folder run processes exactly the directory entries that are
regular files whose lower-cased extension is in the fixed whitelist, and
every path outside the footprint of the processed files (their
transcript and scratch paths) is left untouched — an excluded entry gets
no output file and no temporary artifact. -/
theorem audiowise_C9 (c : FolderCfg) (entries : List DirEntry) (fs0 : FS) :
    (∀ e, e ∈ videoFiles entries ↔ e ∈ entries ∧ e.isFile = true ∧
      pyLower (splitext e.name).2 ∈ SUPPORTED_VIDEO_EXTENSIONS) ∧
    (∀ q, q ∉ folderFootprint c entries →
      FS.read (process_folder c entries fs0).fs q = FS.read fs0 q) := by
  constructor
  · intro e
    unfold videoFiles
    rw [List.mem_filter]
    simp [Bool.and_eq_true, decide_eq_true_iff]
  · intro q hq
    unfold process_folder
    refine aud_fold_footprint c (folderFootprint c entries)
      ((videoFiles entries).map (fun e => e.name)) ⟨fs0, [], []⟩ ?_
      (by simp) q hq
    intro f hf
    refine ⟨?_, ?_, ?_⟩ <;>
      exact List.mem_flatMap.mpr ⟨f, hf, by simp⟩

/-- Witness for C9: in the concrete folder, "notes.txt" is excluded by
the extension filter and its would-be transcript path is never
created. -/
theorem audiowise_C9_w :
    (⟨"notes.txt", true⟩ ∉ videoFiles entriesW) ∧
      FS.read (process_folder folderCfgW entriesW []).fs
        (FolderCfg.outPath folderCfgW ("notes.txt")) = none := by
  constructor
  · intro h
    exact absurd (((audiowise_C9 folderCfgW entriesW []).1
      ⟨"notes.txt", true⟩).mp h).2.2 (by decide)
  · rw [(audiowise_C9 folderCfgW entriesW []).2
      (FolderCfg.outPath folderCfgW ("notes.txt")) (by decide)]
    rfl

end Audiowise
